import Mathlib

/-!
Verification of the nv-ingest DAPT-curation example client
(`examples/nv-ingest-dapt-curation/main.py`) against its specification.

The script-level operations (`parse_id`, the per-file classification loop of
`analyze_contents`, the decode-and-save loop of `display_contents`) are
embedded directly from the Python source.  Components of the ingest client
library (`JobSpec`, the task primitives, `NvIngestClient`) are used by the
script but their sources are not part of this tree, so they are modelled from
the specification where a claim requires them; each such definition carries a
doc comment saying so.

Strings are embedded as `List Char`; bytes as `Nat` values below 256; Python
exceptions as `Except`/`Option` results.
-/

namespace NvIngest

/-! ## `parse_id` (main.py lines 36-56)

`parse_id` tries `re.match` with the direct-ID pattern
`\d{4}\.\d{4,5}(v\d+)?$`, then with the URL pattern
`https?://(?:www\.)?arxiv\.org/(abs|pdf)/(\d{4}\.\d{4,5})(v\d+)?(\.pdf)?$`,
and raises `ValueError` when neither matches.  Both patterns are anchored at
the start by `re.match`; `$` matches at the end of the string or just before
a single trailing newline (Python semantics without `re.MULTILINE`).

In both patterns every quantifier choice is forced: whenever a greedy
alternative consumes a character, the skipping alternative is immediately
stuck on that same character.  The matchers below therefore implement the
greedy strategy as plain deterministic functions, which coincide with the
backtracking semantics of `re`. -/

/-- Longest digit run at the head of the string, with the remainder. -/
def splitDigits : List Char → List Char × List Char
  | [] => ([], [])
  | c :: cs =>
    if c.isDigit then
      let p := splitDigits cs
      (c :: p.1, p.2)
    else ([], c :: cs)

/-- Python `$` (no MULTILINE): end of string, or just before a final newline. -/
def dollar (s : List Char) : Bool :=
  s = [] ∨ s = ['\n']

/-- The optional group `(v\d+)?` followed by context that can never start with
`v` or a digit: returns the consumed group text and the remainder, or `none`
when a lone `v` (which no continuation of either pattern can absorb) blocks
the match. -/
def matchVOpt : List Char → Option (List Char × List Char)
  | [] => some ([], [])
  | c :: rest =>
    if c = 'v' then
      let p := splitDigits rest
      if p.1 = [] then none else some ('v' :: p.1, p.2)
    else some ([], c :: rest)

/-- The tail of the ID patterns after the leading digit run and the dot:
`\d{4,5}(v\d+)?$`. -/
def idTail (r2 : List Char) : Bool :=
  if (splitDigits r2).1.length = 4 ∨ (splitDigits r2).1.length = 5 then
    match matchVOpt (splitDigits r2).2 with
    | some pr => dollar pr.2
    | none => false
  else false

/-- The direct-ID pattern `\d{4}\.\d{4,5}(v\d+)?$`, matched from the start of
the string (`re.match` semantics). -/
def matchArxivId (s : List Char) : Bool :=
  match (splitDigits s).2 with
  | c :: r2 => if c = '.' ∧ (splitDigits s).1.length = 4 then idTail r2 else false
  | [] => false

/-- Strips a literal from the head of the string. -/
def stripLit : List Char → List Char → Option (List Char)
  | [], s => some s
  | _ :: _, [] => none
  | c :: cs, d :: ds => if c = d then stripLit cs ds else none

/-- The host-and-route half of the URL pattern:
`https?://(?:www\.)?arxiv\.org/(abs|pdf)/`, consumed from the start of the
string; returns the remainder.  Each optional piece is taken greedily, which
is forced (skipping it leaves the very character that made it apply). -/
def urlAfterHost (s : List Char) : Option (List Char) :=
  match stripLit "http".toList s with
  | none => none
  | some r1 =>
    let r2 := match r1 with
      | c :: t => if c = 's' then t else c :: t
      | [] => []
    match stripLit "://".toList r2 with
    | none => none
    | some r3 =>
      let r4 := match stripLit "www.".toList r3 with
        | some t => t
        | none => r3
      match stripLit "arxiv.org/".toList r4 with
      | none => none
      | some r5 =>
        match stripLit "abs/".toList r5 with
        | some t => some t
        | none => stripLit "pdf/".toList r5

/-- The optional trailing `(\.pdf)?` of the URL pattern: consumed when
present, left alone otherwise (forced greediness again). -/
def pdfStrip (r9 : List Char) : List Char :=
  match stripLit ".pdf".toList r9 with
  | some t => t
  | none => r9

/-- The identifier half of the URL pattern:
`(\d{4}\.\d{4,5})(v\d+)?(\.pdf)?$` against the remainder; returns
`group(2) ++ group(3)` exactly as `parse_id` builds its result (an absent
`group(3)` contributes nothing). -/
def urlIdPart (r6 : List Char) : Option (List Char) :=
  match (splitDigits r6).2 with
  | c :: r7 =>
    if c = '.' ∧ (splitDigits r6).1.length = 4 then
      if (splitDigits r7).1.length = 4 ∨ (splitDigits r7).1.length = 5 then
        match matchVOpt (splitDigits r7).2 with
        | none => none
        | some pr =>
          if dollar (pdfStrip pr.2) then
            some ((splitDigits r6).1 ++ '.' :: ((splitDigits r7).1 ++ pr.1))
          else none
      else none
    else none
  | [] => none

/-- The URL pattern
`https?://(?:www\.)?arxiv\.org/(abs|pdf)/(\d{4}\.\d{4,5})(v\d+)?(\.pdf)?$`,
matched from the start (`re.match` semantics). -/
def matchArxivUrl (s : List Char) : Option (List Char) :=
  (urlAfterHost s).bind urlIdPart

/-- `parse_id` (main.py lines 36-56): returns the input unchanged when the
direct-ID pattern matches, the extracted ID when the URL pattern matches, and
`ValueError` (`Except.error ()`) otherwise. -/
def parse_id (s : List Char) : Except Unit (List Char) :=
  if matchArxivId s then Except.ok s
  else
    match matchArxivUrl s with
    | some r => Except.ok r
    | none => Except.error ()

/-! ## Result records

One element of a job's result document: `metadata.content_metadata.type`,
`metadata.content_metadata.description`, and (for binary types)
`metadata.content`, a base64 string. -/

structure ResultRecord where
  contentType : List Char
  description : List Char
  content : List Char
deriving DecidableEq

/-! ## `analyze_contents` (main.py lines 165-190)

For one metadata file the loop appends each index `i` to
`type_indices[content_type]` (a `defaultdict(list)`) and reports
`len(indices)` per type.  The `defaultdict` is embedded as an association
list in first-insertion order: `addIndex` appends to the entry of the given
type, creating it at the end when absent, exactly as `defaultdict` insertion
order behaves. -/

def addIndex (m : List (List Char × List Nat)) (t : List Char) (i : Nat) :
    List (List Char × List Nat) :=
  match m with
  | [] => [(t, [i])]
  | (k, v) :: rest =>
    if k = t then (k, v ++ [i]) :: rest else (k, v) :: addIndex rest t i

def classifyGo (i : Nat) (m : List (List Char × List Nat)) :
    List ResultRecord → List (List Char × List Nat)
  | [] => m
  | r :: rs => classifyGo (i + 1) (addIndex m r.contentType i) rs

/-- The `type_indices` mapping built by `analyze_contents` over one result
sequence: each index `0 ≤ i < recs.length` is appended to the list of its
record's content type. -/
def classify (recs : List ResultRecord) : List (List Char × List Nat) :=
  classifyGo 0 [] recs

/-- Association-list lookup (first entry wins), empty for an absent key —
matching how the built mapping is read. -/
def lookupT (m : List (List Char × List Nat)) (t : List Char) : List Nat :=
  match m with
  | [] => []
  | (k, v) :: rest => if k = t then v else lookupT rest t

/-- The per-type count `analyze_contents` reports: `len(type_indices[t])`. -/
def countOf (recs : List ResultRecord) (t : List Char) : Nat :=
  (lookupT (classify recs) t).length

/-- Reference list of the indices of records with content type `t`, counting
from `i`. -/
def indicesFrom (i : Nat) (t : List Char) : List ResultRecord → List Nat
  | [] => []
  | r :: rs =>
    if r.contentType = t then i :: indicesFrom (i + 1) t rs
    else indicesFrom (i + 1) t rs

/-! ## `base64.b64decode` (used by `display_contents`, main.py line 212)

CPython's `binascii.a2b_base64` in its default non-strict mode: characters
outside the alphabet are discarded; `=` while fewer than two data characters
are pending in the current quad is discarded; `=` with two or three pending
characters counts as padding, and once pending + padding reaches four the
accumulated partial quad is emitted and the rest of the input is ignored;
at end of input a pending quad of length 1, 2 or 3 is an error
(`binascii.Error`, a `ValueError`).  Bytes are `Nat` values below 256. -/

def b64Val (c : Char) : Option Nat :=
  if 'A' ≤ c ∧ c ≤ 'Z' then some (c.toNat - 65)
  else if 'a' ≤ c ∧ c ≤ 'z' then some (c.toNat - 97 + 26)
  else if '0' ≤ c ∧ c ≤ '9' then some (c.toNat - 48 + 52)
  else if c = '+' then some 62
  else if c = '/' then some 63
  else none

/-- Three bytes of a complete quad of 6-bit values. -/
def quadBytes : List Nat → List Nat
  | [a, b, c, d] => [a * 4 + b / 16, b % 16 * 16 + c / 4, c % 4 * 64 + d]
  | _ => []

/-- Bytes of a partial quad terminated by padding. -/
def padBytes : List Nat → List Nat
  | [a, b] => [a * 4 + b / 16]
  | [a, b, c] => [a * 4 + b / 16, b % 16 * 16 + c / 4]
  | _ => []

def b64Go (pending : List Nat) (pads : Nat) : List Char → Option (List Nat)
  | [] => if pending.length = 0 then some [] else none
  | c :: rest =>
    if c = '=' then
      if 2 ≤ pending.length then
        if 4 ≤ pending.length + (pads + 1) then some (padBytes pending)
        else b64Go pending (pads + 1) rest
      else b64Go pending pads rest
    else
      match b64Val c with
      | none => b64Go pending pads rest
      | some v =>
        if pending.length = 3 then
          (b64Go [] 0 rest).map (fun bs => quadBytes (pending ++ [v]) ++ bs)
        else b64Go (pending ++ [v]) 0 rest

def b64decode (s : List Char) : Option (List Nat) :=
  b64Go [] 0 s

/-! ## `display_contents` (main.py lines 193-215)

For each record of one metadata file: when the content type is `image` or
`table`, the base64 content is decoded and saved to a file named from the
record's index; any other type is passed over with no action.  The loop has
no exception handling, so a decode failure propagates and ends the loop;
files saved before the failure remain written.  An output is recorded as the
pair of the record's index and the decoded payload (the PIL re-encoding of
those bytes to PNG is abstracted away). -/

def binaryDisplayType (t : List Char) : Bool :=
  t = "image".toList ∨ t = "table".toList

/-- One iteration of the `display_contents` loop body: `ok none` when the
record is skipped, `ok (some (idx, bytes))` when a file is written,
`error` when decoding raises. -/
def displayRecord (idx : Nat) (r : ResultRecord) :
    Except Unit (Option (Nat × List Nat)) :=
  if binaryDisplayType r.contentType then
    match b64decode r.content with
    | some bs => Except.ok (some (idx, bs))
    | none => Except.error ()
  else Except.ok none

/-- The `display_contents` loop from index `i`: returns the outputs written
and whether an uncaught decode error ended the loop early. -/
def displayLoop (i : Nat) : List ResultRecord → List (Nat × List Nat) × Bool
  | [] => ([], false)
  | r :: rs =>
    match displayRecord i r with
    | Except.error _ => ([], true)
    | Except.ok none => displayLoop (i + 1) rs
    | Except.ok (some f) =>
      let p := displayLoop (i + 1) rs
      (f :: p.1, p.2)

/-- `display_contents` over one result sequence. -/
def display_contents (recs : List ResultRecord) :
    List (Nat × List Nat) × Bool :=
  displayLoop 0 recs

/-! ## Task construction (spec §3, §4.1)

The task primitives (`ExtractTask`, `DedupTask`, `FilterTask`) live in the
`nv_ingest_client` library, whose sources are not part of this tree; only
their call sites (main.py lines 127-148) are.  The definitions below are
modelled from the specification. -/

/-- Modelled from the spec: a task parameter value — boolean flag, numeric
value (numbers embedded as rationals), or string option. -/
inductive ParamVal
  | pBool : Bool → ParamVal
  | pNum : Rat → ParamVal
  | pStr : List Char → ParamVal
deriving DecidableEq

/-- Modelled from the spec: the closed enum of task kinds used by the
script. -/
inductive TaskKind
  | extract
  | dedup
  | filter
deriving DecidableEq

/-- Modelled from the spec: a Task is a validated pure value object — a kind
plus its parameter mapping. -/
structure Task where
  kind : TaskKind
  parameters : List (List Char × ParamVal)
deriving DecidableEq

/-- Modelled from the spec: the error raised when task construction rejects
its parameters (`InvalidParameterError`). -/
inductive TaskError
  | invalidParameter
deriving DecidableEq

/-- Modelled from the spec: the parameter schema of each kind, taken from the
constructor calls in the script. -/
def requiredParams : TaskKind → List (List Char)
  | TaskKind.extract =>
    ["document_type".toList, "extract_text".toList, "extract_images".toList,
     "extract_tables".toList, "extract_charts".toList, "text_depth".toList,
     "extract_tables_method".toList]
  | TaskKind.dedup => ["content_type".toList, "filter".toList]
  | TaskKind.filter =>
    ["content_type".toList, "min_size".toList, "max_aspect_ratio".toList,
     "min_aspect_ratio".toList, "filter".toList]

/-- Modelled from the spec: the semantic-type check for one parameter of one
kind, including the declared valid ranges of the numeric parameters (a size
is nonnegative, an aspect bound is positive). -/
def paramOk (k : TaskKind) (n : List Char) (v : ParamVal) : Bool :=
  match k with
  | TaskKind.extract =>
    if n = "document_type".toList ∨ n = "extract_tables_method".toList then
      match v with
      | ParamVal.pStr _ => true
      | _ => false
    else if n = "text_depth".toList then
      v = ParamVal.pStr "page".toList ∨ v = ParamVal.pStr "document".toList
    else
      match v with
      | ParamVal.pBool _ => true
      | _ => false
  | TaskKind.dedup =>
    if n = "content_type".toList then
      match v with
      | ParamVal.pStr _ => true
      | _ => false
    else
      match v with
      | ParamVal.pBool _ => true
      | _ => false
  | TaskKind.filter =>
    if n = "content_type".toList then
      match v with
      | ParamVal.pStr _ => true
      | _ => false
    else if n = "min_size".toList then
      match v with
      | ParamVal.pNum q => 0 ≤ q
      | _ => false
    else if n = "max_aspect_ratio".toList ∨ n = "min_aspect_ratio".toList then
      match v with
      | ParamVal.pNum q => 0 < q
      | _ => false
    else
      match v with
      | ParamVal.pBool _ => true
      | _ => false

/-- Association-list lookup for a parameter name. -/
def lookupP (ps : List (List Char × ParamVal)) (n : List Char) :
    Option ParamVal :=
  match ps with
  | [] => none
  | p :: rest => if p.1 = n then some p.2 else lookupP rest n

/-- Modelled from the spec: the executable validation task construction
performs — every required parameter present, and every supplied parameter
known for the kind and of the right semantic type. -/
def paramsValid (k : TaskKind) (ps : List (List Char × ParamVal)) : Bool :=
  (requiredParams k).all (fun n => (lookupP ps n).isSome) &&
    ps.all (fun p => decide (p.1 ∈ requiredParams k) && paramOk k p.1 p.2)

/-- The spec-side declarative statement of parameter validity for a kind,
written from the spec's words independently of `paramsValid`. -/
def validTaskParams (k : TaskKind) (ps : List (List Char × ParamVal)) : Prop :=
  (∀ n ∈ requiredParams k, ∃ v, lookupP ps n = some v) ∧
    ∀ p ∈ ps, p.1 ∈ requiredParams k ∧ paramOk k p.1 p.2 = true

/-- Modelled from the spec: `newTask(kind, parameters)` — validates at
construction time and otherwise fails with `InvalidParameterError`. -/
def newTask (k : TaskKind) (ps : List (List Char × ParamVal)) :
    Except TaskError Task :=
  if paramsValid k ps then Except.ok ⟨k, ps⟩
  else Except.error TaskError.invalidParameter

/-! ## JobSpec construction and the wire encoding (spec §4.2, §6)

`JobSpec` also lives in the `nv_ingest_client` library; the script builds one
at main.py lines 113-124 and appends tasks at lines 150-151.  Modelled from
the specification. -/

/-- Modelled from the spec: the `JobSpec` data — document type, payload,
source identifiers, the ordered task sequence, and tracing options (a trace
flag and a nanosecond send timestamp). -/
structure JobSpecData where
  documentType : List Char
  payload : List Char
  sourceId : List Char
  sourceName : List Char
  tasks : List Task
  traceEnabled : Bool
  tsSend : Nat
deriving DecidableEq

/-- Modelled from the spec: the error for an empty payload at construction
time (`EmptyPayloadError`). -/
inductive JobSpecError
  | emptyPayload
deriving DecidableEq

/-- Modelled from the spec: `newJobSpec` — fails with `EmptyPayloadError`
when the payload is empty; the task sequence starts empty. -/
def newJobSpec (dt payload sid sname : List Char) (trace : Bool) (ts : Nat) :
    Except JobSpecError JobSpecData :=
  if payload = [] then Except.error JobSpecError.emptyPayload
  else Except.ok ⟨dt, payload, sid, sname, [], trace, ts⟩

/-- Modelled from the spec: `addTask` appends to the ordered task
sequence. -/
def addTask (js : JobSpecData) (t : Task) : JobSpecData :=
  { js with tasks := js.tasks ++ [t] }

/-- Modelled from the spec: one token of the wire document. -/
inductive Tok
  | tStr : List Char → Tok
  | tNum : Nat → Tok
  | tRat : Rat → Tok
  | tBool : Bool → Tok
deriving DecidableEq

/-- The wire spelling of a task kind. -/
def kindName : TaskKind → List Char
  | TaskKind.extract => "extract".toList
  | TaskKind.dedup => "dedup".toList
  | TaskKind.filter => "filter".toList

def decodeKind (s : List Char) : Option TaskKind :=
  if s = "extract".toList then some TaskKind.extract
  else if s = "dedup".toList then some TaskKind.dedup
  else if s = "filter".toList then some TaskKind.filter
  else none

def encodeVal : ParamVal → Tok
  | ParamVal.pBool b => Tok.tBool b
  | ParamVal.pNum q => Tok.tRat q
  | ParamVal.pStr s => Tok.tStr s

def decodeVal : Tok → Option ParamVal
  | Tok.tBool b => some (ParamVal.pBool b)
  | Tok.tRat q => some (ParamVal.pNum q)
  | Tok.tStr s => some (ParamVal.pStr s)
  | _ => none

/-- Modelled from the spec: the wire encoding of the parameter mapping, each
entry as name token then value token, in declared order. -/
def encodeParams : List (List Char × ParamVal) → List Tok
  | [] => []
  | p :: rest => Tok.tStr p.1 :: encodeVal p.2 :: encodeParams rest

def decodeParams : Nat → List Tok → Option (List (List Char × ParamVal) × List Tok)
  | 0, toks => some ([], toks)
  | n + 1, Tok.tStr name :: vt :: rest =>
    match decodeVal vt with
    | none => none
    | some v =>
      match decodeParams n rest with
      | none => none
      | some (ps, left) => some ((name, v) :: ps, left)
  | _ + 1, _ => none

/-- Modelled from the spec: the wire encoding of one task — kind string,
parameter count, then the parameters in declared order. -/
def encodeTask (t : Task) : List Tok :=
  Tok.tStr (kindName t.kind) :: Tok.tNum t.parameters.length ::
    encodeParams t.parameters

def decodeTasks : Nat → List Tok → Option (List Task × List Tok)
  | 0, toks => some ([], toks)
  | n + 1, Tok.tStr ks :: Tok.tNum np :: rest =>
    match decodeKind ks with
    | none => none
    | some k =>
      match decodeParams np rest with
      | none => none
      | some (ps, left) =>
        match decodeTasks n left with
        | none => none
        | some (ts, left2) => some (⟨k, ps⟩ :: ts, left2)
  | _ + 1, _ => none

/-- Modelled from the spec: the deterministic wire encoding of a JobSpec —
document type, payload, source identifiers, tracing flag and send timestamp,
then the task count and the task sequence in declared order (spec §6). -/
def encodeJobSpec (js : JobSpecData) : List Tok :=
  Tok.tStr js.documentType :: Tok.tStr js.payload :: Tok.tStr js.sourceId ::
    Tok.tStr js.sourceName :: Tok.tBool js.traceEnabled :: Tok.tNum js.tsSend ::
    Tok.tNum js.tasks.length :: (js.tasks.map encodeTask).flatten

/-- Modelled from the spec: decoding a wire document back to a JobSpec. -/
def decodeJobSpec (toks : List Tok) : Option JobSpecData :=
  match toks with
  | Tok.tStr dt :: Tok.tStr payload :: Tok.tStr sid :: Tok.tStr sname ::
      Tok.tBool trace :: Tok.tNum ts :: Tok.tNum n :: rest =>
    match decodeTasks n rest with
    | some (tasks, []) => some ⟨dt, payload, sid, sname, tasks, trace, ts⟩
    | _ => none
  | _ => none

/-! ## Fetching with a timeout (spec §4.3)

`client.fetch_job_result(job_id, timeout=...)` (main.py line 158) is library
code not in this tree.  Modelled from the specification: the client polls for
completion, one poll per time unit, until the remote engine reports
completion or the deadline passes; on deadline it fails with `TimeoutError`
and the job's status becomes TimedOut. -/

/-- Modelled from the spec: job lifecycle states (spec §3). -/
inductive JobStatus
  | pending
  | submitted
  | completed
  | timedOut
  | failed
deriving DecidableEq

/-- Modelled from the spec: the polling wait of `fetchJobResult`, started at
elapsed time `t`.  `done` is the remote completion time, `timeout` the
caller-supplied deadline.  Returns the elapsed time at return and whether the
outcome is `TimeoutError`. -/
def fetchLoop (done timeout t : Nat) : Nat × Bool :=
  if done ≤ t then (t, false)
  else if timeout ≤ t then (t, true)
  else fetchLoop done timeout (t + 1)
termination_by timeout - t
decreasing_by omega

/-- Modelled from the spec: `fetchJobResult` against a job whose remote
processing completes at time `done`, with deadline `timeout`. -/
def fetchJobResult (done timeout : Nat) : Nat × Bool :=
  fetchLoop done timeout 0

/-- Modelled from the spec: the job status after the fetch returns. -/
def statusAfterFetch (done timeout : Nat) : JobStatus :=
  if (fetchJobResult done timeout).2 then JobStatus.timedOut
  else JobStatus.completed

/-! ## Lemmas about the `parse_id` matchers -/

/-- The remainder handed back by a digit-run split may not start with a
digit. -/
def headNonDigit : List Char → Prop
  | [] => True
  | c :: _ => c.isDigit = false

theorem splitDigits_append (a r : List Char) (ha : ∀ c ∈ a, c.isDigit = true)
    (hr : headNonDigit r) : splitDigits (a ++ r) = (a, r) := by
  induction a with
  | nil =>
    cases r with
    | nil => rfl
    | cons c cs =>
      simp only [headNonDigit] at hr
      simp [splitDigits, hr]
  | cons c a ih =>
    have hc : c.isDigit = true := ha c (List.mem_cons_self c a)
    have ha' : ∀ x ∈ a, x.isDigit = true := fun x hx => ha x (List.mem_cons_of_mem c hx)
    simp [splitDigits, hc, ih ha']

theorem splitDigits_fst_digits (s : List Char) :
    ∀ c ∈ (splitDigits s).1, c.isDigit = true := by
  induction s with
  | nil =>
    intro x hx
    simp [splitDigits] at hx
  | cons c cs ih =>
    intro x hx
    by_cases hc : c.isDigit = true
    · rw [show splitDigits (c :: cs) = (c :: (splitDigits cs).1, (splitDigits cs).2) from by
        simp [splitDigits, hc]] at hx
      rcases List.mem_cons.mp hx with rfl | hx'
      · exact hc
      · exact ih x hx'
    · rw [show splitDigits (c :: cs) = ([], c :: cs) from by simp [splitDigits, hc]] at hx
      simp at hx

theorem matchVOpt_shape (s v r : List Char) (h : matchVOpt s = some (v, r)) :
    v = [] ∨ ∃ w, v = 'v' :: w ∧ w ≠ [] ∧ ∀ c ∈ w, c.isDigit = true := by
  cases s with
  | nil =>
    simp only [matchVOpt, Option.some.injEq, Prod.mk.injEq] at h
    exact Or.inl h.1.symm
  | cons c cs =>
    simp only [matchVOpt] at h
    by_cases hc : c = 'v'
    · rw [if_pos hc] at h
      by_cases hp : (splitDigits cs).1 = []
      · rw [if_pos hp] at h
        exact absurd h (by simp)
      · rw [if_neg hp] at h
        simp only [Option.some.injEq, Prod.mk.injEq] at h
        exact Or.inr ⟨(splitDigits cs).1, h.1.symm, hp, splitDigits_fst_digits cs⟩
    · rw [if_neg hc] at h
      simp only [Option.some.injEq, Prod.mk.injEq] at h
      exact Or.inl h.1.symm

theorem matchVOpt_vrun (w : List Char) (hw : w ≠ []) (hd : ∀ c ∈ w, c.isDigit = true) :
    matchVOpt ('v' :: w) = some ('v' :: w, []) := by
  have hsplit : splitDigits w = (w, []) := by
    have := splitDigits_append w [] hd trivial
    simpa using this
  simp [matchVOpt, hsplit, hw]

theorem stripLit_eq_some (p s r : List Char) (h : stripLit p s = some r) :
    s = p ++ r := by
  induction p generalizing s with
  | nil =>
    simp only [stripLit, Option.some.injEq] at h
    simp [h]
  | cons c cs ih =>
    cases s with
    | nil => exact absurd h (by simp [stripLit])
    | cons d ds =>
      simp only [stripLit] at h
      by_cases hc : c = d
      · rw [if_pos hc] at h
        simpa [hc] using congrArg (d :: ·) (ih ds h)
      · rw [if_neg hc] at h
        exact absurd h (by simp)

/-- The claim-side statement of the direct arXiv ID format: four digits, a
dot, four or five digits, an optional `v`-plus-digits version suffix, at the
end of the string.  This is also exactly the shape of an ID extracted from a
matching URL. -/
def directIdFormat (s : List Char) : Prop :=
  ∃ a b v, s = a ++ '.' :: (b ++ v) ∧ a.length = 4 ∧ (∀ c ∈ a, c.isDigit = true) ∧
    (b.length = 4 ∨ b.length = 5) ∧ (∀ c ∈ b, c.isDigit = true) ∧
    (v = [] ∨ ∃ w, v = 'v' :: w ∧ w ≠ [] ∧ ∀ c ∈ w, c.isDigit = true)

theorem idTail_format (b v : List Char) (hb45 : b.length = 4 ∨ b.length = 5)
    (hbd : ∀ c ∈ b, c.isDigit = true)
    (hv : v = [] ∨ ∃ w, v = 'v' :: w ∧ w ≠ [] ∧ ∀ c ∈ w, c.isDigit = true) :
    idTail (b ++ v) = true := by
  rcases hv with rfl | ⟨w, rfl, hw, hwd⟩
  · have h2 : splitDigits (b ++ []) = (b, []) := splitDigits_append b [] hbd trivial
    unfold idTail
    rw [h2]
    simp [hb45, matchVOpt, dollar]
  · have h2 : splitDigits (b ++ 'v' :: w) = (b, 'v' :: w) :=
      splitDigits_append b _ hbd (by simp [headNonDigit])
    unfold idTail
    rw [h2]
    simp [hb45, matchVOpt_vrun w hw hwd, dollar]

theorem matchArxivId_of_format (s : List Char) (h : directIdFormat s) :
    matchArxivId s = true := by
  obtain ⟨a, b, v, rfl, ha4, had, hb45, hbd, hv⟩ := h
  have h1 : splitDigits (a ++ '.' :: (b ++ v)) = (a, '.' :: (b ++ v)) :=
    splitDigits_append a _ had (by simp [headNonDigit])
  unfold matchArxivId
  rw [h1]
  simp [ha4, idTail_format b v hb45 hbd hv]

/-- Claim C8: every input string matching the direct arXiv ID format — four
digits, a dot, four or five digits, an optional `v`-plus-digits version
suffix, at the end of the string — is returned unchanged by `parse_id`. -/
theorem claim_C8 (s : List Char) (h : directIdFormat s) :
    parse_id s = Except.ok s := by
  unfold parse_id
  rw [matchArxivId_of_format s h]
  simp

/-- Witness for claim C8 at the concrete ID `2101.12345v2`. -/
theorem claim_C8_witness :
    directIdFormat "2101.12345v2".toList ∧
      parse_id "2101.12345v2".toList = Except.ok "2101.12345v2".toList := by
  have hfmt : directIdFormat "2101.12345v2".toList :=
    ⟨"2101".toList, "12345".toList, 'v' :: "2".toList, by decide, by decide,
      by decide, by decide, by decide, Or.inr ⟨"2".toList, rfl, by decide, by decide⟩⟩
  exact ⟨hfmt, claim_C8 _ hfmt⟩

theorem urlAfterHost_starts (s r6 : List Char) (h : urlAfterHost s = some r6) :
    ∃ t, s = 'h' :: t := by
  unfold urlAfterHost at h
  cases e : stripLit "http".toList s with
  | none => rw [e] at h; exact absurd h (by simp)
  | some r1 =>
    have := stripLit_eq_some _ _ _ e
    exact ⟨'t' :: 't' :: 'p' :: r1, by simpa using this⟩

theorem matchArxivId_cons_h (t : List Char) : matchArxivId ('h' :: t) = false := by
  have h1 : splitDigits ('h' :: t) = ([], 'h' :: t) := by
    simp [splitDigits]
  unfold matchArxivId
  rw [h1]
  simp

theorem urlIdPart_shape (r6 r : List Char) (h : urlIdPart r6 = some r) :
    directIdFormat r := by
  unfold urlIdPart at h
  split at h
  · next c r7 heq =>
    split at h
    · next hc =>
      split at h
      · next h45 =>
        split at h
        · exact absurd h (by simp)
        · next pr heqv =>
          split at h
          · next hd =>
            simp only [Option.some.injEq] at h
            exact ⟨(splitDigits r6).1, (splitDigits r7).1, pr.1, h.symm, hc.2,
              splitDigits_fst_digits r6, h45, splitDigits_fst_digits r7,
              matchVOpt_shape _ pr.1 pr.2 (by rw [heqv])⟩
          · exact absurd h (by simp)
      · exact absurd h (by simp)
    · exact absurd h (by simp)
  · exact absurd h (by simp)

/-- Claim C9: `parse_id` raises `ValueError` exactly when the input matches
neither the direct-ID pattern nor the URL pattern; every matching URL yields
the extracted ID — with its version suffix preserved when present — and the
function always returns a value (an `Except`, never `none`). -/
theorem claim_C9 (s : List Char) :
    (parse_id s = Except.error () ↔ matchArxivId s = false ∧ matchArxivUrl s = none) ∧
      ∀ r, matchArxivUrl s = some r → parse_id s = Except.ok r ∧ directIdFormat r := by
  constructor
  · unfold parse_id
    by_cases hid : matchArxivId s
    · simp [hid]
    · have hid2 : matchArxivId s = false := by simpa using hid
      cases hurl : matchArxivUrl s with
      | none => simp [hid2, hurl]
      | some r => simp [hid2, hurl]
  · intro r hurl
    have hid : matchArxivId s = false := by
      obtain ⟨r6, h6, _⟩ := Option.bind_eq_some.mp hurl
      obtain ⟨t, rfl⟩ := urlAfterHost_starts s r6 h6
      exact matchArxivId_cons_h t
    constructor
    · unfold parse_id
      rw [hid]
      simp [hurl]
    · obtain ⟨r6, _, hpart⟩ := Option.bind_eq_some.mp hurl
      exact urlIdPart_shape r6 r hpart

/-- Witness for claim C9 at the concrete URL
`https://arxiv.org/abs/1234.5678v1`. -/
theorem claim_C9_witness :
    parse_id "https://arxiv.org/abs/1234.5678v1".toList =
        Except.ok "1234.5678v1".toList ∧
      directIdFormat "1234.5678v1".toList :=
  (claim_C9 _).2 _ (by rfl)

/-! ## Lemmas about `classify` -/

theorem lookupT_addIndex_self (m : List (List Char × List Nat)) (t : List Char)
    (i : Nat) : lookupT (addIndex m t i) t = lookupT m t ++ [i] := by
  induction m with
  | nil => simp [addIndex, lookupT]
  | cons p rest ih =>
    obtain ⟨k, v⟩ := p
    by_cases hk : k = t
    · simp [addIndex, lookupT, hk]
    · simp [addIndex, lookupT, hk, ih]

theorem lookupT_addIndex_ne (m : List (List Char × List Nat)) (t t' : List Char)
    (i : Nat) (hne : t' ≠ t) : lookupT (addIndex m t i) t' = lookupT m t' := by
  induction m with
  | nil => simp [addIndex, lookupT, Ne.symm hne]
  | cons p rest ih =>
    obtain ⟨k, v⟩ := p
    by_cases hk : k = t
    · subst hk
      simp [addIndex, lookupT, Ne.symm hne]
    · by_cases hk' : k = t'
      · simp [addIndex, lookupT, hk, hk', hne]
      · simp [addIndex, lookupT, hk, hk', ih]

theorem classifyGo_lookup (rs : List ResultRecord) :
    ∀ (i : Nat) (m : List (List Char × List Nat)) (t : List Char),
      lookupT (classifyGo i m rs) t = lookupT m t ++ indicesFrom i t rs := by
  induction rs with
  | nil =>
    intro i m t
    simp [classifyGo, indicesFrom]
  | cons r rs ih =>
    intro i m t
    rw [classifyGo, ih]
    by_cases ht : r.contentType = t
    · rw [ht, lookupT_addIndex_self, indicesFrom, if_pos ht]
      simp
    · rw [lookupT_addIndex_ne m r.contentType t i (fun h => ht h.symm),
        indicesFrom, if_neg ht]

theorem classify_lookup (recs : List ResultRecord) (t : List Char) :
    lookupT (classify recs) t = indicesFrom 0 t recs := by
  rw [classify, classifyGo_lookup]
  simp [lookupT]

theorem mem_indicesFrom (t : List Char) (rs : List ResultRecord) :
    ∀ (i j : Nat), j ∈ indicesFrom i t rs ↔
      ∃ (m : Nat) (hm : m < rs.length), j = i + m ∧ (rs.get ⟨m, hm⟩).contentType = t := by
  induction rs with
  | nil =>
    intro i j
    simp [indicesFrom]
  | cons r rs ih =>
    intro i j
    constructor
    · intro hj
      by_cases ht : r.contentType = t
      · rw [indicesFrom, if_pos ht] at hj
        rcases List.mem_cons.mp hj with rfl | hj'
        · exact ⟨0, Nat.succ_pos _, by omega, ht⟩
        · obtain ⟨m, hm, hje, hty⟩ := (ih (i + 1) j).mp hj'
          exact ⟨m + 1, Nat.succ_lt_succ hm, by omega, hty⟩
      · rw [indicesFrom, if_neg ht] at hj
        obtain ⟨m, hm, hje, hty⟩ := (ih (i + 1) j).mp hj
        exact ⟨m + 1, Nat.succ_lt_succ hm, by omega, hty⟩
    · rintro ⟨m, hm, rfl, hty⟩
      cases m with
      | zero =>
        have ht : r.contentType = t := hty
        rw [indicesFrom, if_pos ht]
        simp
      | succ m' =>
        have hm' : m' < rs.length := Nat.lt_of_succ_lt_succ hm
        have hmem : i + 1 + m' ∈ indicesFrom (i + 1) t rs :=
          (ih (i + 1) (i + 1 + m')).mpr ⟨m', hm', rfl, hty⟩
        have harith : i + (m' + 1) = i + 1 + m' := by omega
        rw [indicesFrom]
        by_cases ht : r.contentType = t
        · rw [if_pos ht]
          exact List.mem_cons_of_mem _ (harith ▸ hmem)
        · rw [if_neg ht]
          exact harith ▸ hmem

theorem indicesFrom_ge (t : List Char) (rs : List ResultRecord) :
    ∀ (i j : Nat), j ∈ indicesFrom i t rs → i ≤ j := by
  induction rs with
  | nil =>
    intro i j hj
    simp [indicesFrom] at hj
  | cons r rs ih =>
    intro i j hj
    by_cases ht : r.contentType = t
    · rw [indicesFrom, if_pos ht] at hj
      rcases List.mem_cons.mp hj with rfl | hj'
      · exact Nat.le_refl j
      · exact Nat.le_of_succ_le (ih (i + 1) j hj')
    · rw [indicesFrom, if_neg ht] at hj
      exact Nat.le_of_succ_le (ih (i + 1) j hj)

theorem indicesFrom_nodup (t : List Char) (rs : List ResultRecord) :
    ∀ i : Nat, (indicesFrom i t rs).Nodup := by
  induction rs with
  | nil =>
    intro i
    simp [indicesFrom]
  | cons r rs ih =>
    intro i
    by_cases ht : r.contentType = t
    · rw [indicesFrom, if_pos ht]
      refine List.nodup_cons.mpr ⟨fun hmem => ?_, ih (i + 1)⟩
      have := indicesFrom_ge t rs (i + 1) i hmem
      omega
    · rw [indicesFrom, if_neg ht]
      exact ih (i + 1)

/-- The ten-record instance of the testable property: 4 image, 3 table and 3
text records. -/
def exRecords : List ResultRecord :=
  [⟨"image".toList, [], []⟩, ⟨"table".toList, [], []⟩, ⟨"text".toList, [], []⟩,
   ⟨"image".toList, [], []⟩, ⟨"table".toList, [], []⟩, ⟨"text".toList, [], []⟩,
   ⟨"image".toList, [], []⟩, ⟨"table".toList, [], []⟩, ⟨"text".toList, [], []⟩,
   ⟨"image".toList, [], []⟩]

/-- Claim C3: over any result sequence, the classification assigns, per
content type, an index list such that each record's index is a member of the
list of its own type and of no other, appears there exactly once, and every
listed index is an index of the sequence — so the lists partition the index
range; on the 10-record instance with 4 image, 3 table and 3 text records the
per-type counts are 4, 3 and 3. -/
theorem claim_C3 :
    (∀ (recs : List ResultRecord) (j : Nat) (hj : j < recs.length),
        (∀ t, j ∈ lookupT (classify recs) t ↔ t = (recs.get ⟨j, hj⟩).contentType) ∧
        (lookupT (classify recs) ((recs.get ⟨j, hj⟩).contentType)).count j = 1 ∧
        ∀ t i, i ∈ lookupT (classify recs) t → i < recs.length) ∧
      countOf exRecords "image".toList = 4 ∧ countOf exRecords "table".toList = 3 ∧
        countOf exRecords "text".toList = 3 := by
  refine ⟨fun recs j hj => ⟨fun t => ?_, ?_, fun t i hi => ?_⟩, by decide, by decide, by decide⟩
  · rw [classify_lookup, mem_indicesFrom]
    constructor
    · rintro ⟨m, hm, hjm, hty⟩
      have : m = j := by omega
      subst this
      exact hty.symm
    · intro hty
      exact ⟨j, hj, by omega, hty.symm⟩
  · have hmem : j ∈ lookupT (classify recs) ((recs.get ⟨j, hj⟩).contentType) := by
      rw [classify_lookup, mem_indicesFrom]
      exact ⟨j, hj, by omega, rfl⟩
    have hnd : (lookupT (classify recs) ((recs.get ⟨j, hj⟩).contentType)).Nodup := by
      rw [classify_lookup]
      exact indicesFrom_nodup _ recs 0
    exact List.count_eq_one_of_mem hnd hmem
  · rw [classify_lookup, mem_indicesFrom] at hi
    obtain ⟨m, hm, him, _⟩ := hi
    omega

/-- Witness for claim C3 at index 0 of the 10-record instance. -/
theorem claim_C3_witness :
    (∀ t, 0 ∈ lookupT (classify exRecords) t ↔
        t = (exRecords.get ⟨0, by decide⟩).contentType) ∧
      (lookupT (classify exRecords)
          ((exRecords.get ⟨0, by decide⟩).contentType)).count 0 = 1 ∧
      ∀ t i, i ∈ lookupT (classify exRecords) t → i < exRecords.length :=
  claim_C3.1 exRecords 0 (by decide)

/-! ## Lemmas about `display_contents` and `b64decode` -/

theorem displayRecord_ok_some (i : Nat) (r : ResultRecord) (f : Nat × List Nat)
    (h : displayRecord i r = Except.ok (some f)) :
    f.1 = i ∧ binaryDisplayType r.contentType = true ∧
      b64decode r.content = some f.2 := by
  unfold displayRecord at h
  by_cases hb : binaryDisplayType r.contentType = true
  · rw [if_pos hb] at h
    cases e : b64decode r.content with
    | none =>
      rw [e] at h
      exact absurd h (by simp)
    | some bs =>
      rw [e] at h
      simp only [Except.ok.injEq, Option.some.injEq] at h
      subst h
      exact ⟨rfl, hb, rfl⟩
  · rw [if_neg hb] at h
    exact absurd h (by simp)

theorem mem_displayLoop (rs : List ResultRecord) :
    ∀ (i j : Nat) (b : List Nat), (j, b) ∈ (displayLoop i rs).1 →
      ∃ (m : Nat) (hm : m < rs.length), j = i + m ∧
        binaryDisplayType ((rs.get ⟨m, hm⟩).contentType) = true ∧
        b64decode ((rs.get ⟨m, hm⟩).content) = some b := by
  induction rs with
  | nil =>
    intro i j b h
    simp [displayLoop] at h
  | cons r rs ih =>
    intro i j b h
    rw [displayLoop] at h
    split at h
    · simp at h
    · next heq =>
      obtain ⟨m, hm, hjm, hb2, hd⟩ := ih (i + 1) j b h
      exact ⟨m + 1, Nat.succ_lt_succ hm, by omega, hb2, hd⟩
    · next f heq =>
      simp only [List.mem_cons] at h
      rcases h with rfl | h'
      · obtain ⟨hf1, hb2, hd⟩ := displayRecord_ok_some i r (j, b) heq
        exact ⟨0, Nat.succ_pos _, by simpa using hf1, hb2, hd⟩
      · obtain ⟨m, hm, hjm, hb2, hd⟩ := ih (i + 1) j b h'
        exact ⟨m + 1, Nat.succ_lt_succ hm, by omega, hb2, hd⟩

/-- Claim C10: a record whose content type is neither `image` nor `table` is
silently passed over by the binary-display step — no decoding, no output file
for its index, no error. -/
theorem claim_C10 (recs : List ResultRecord) (j : Nat) (hj : j < recs.length)
    (hnb : binaryDisplayType ((recs.get ⟨j, hj⟩).contentType) = false) :
    displayRecord j (recs.get ⟨j, hj⟩) = Except.ok none ∧
      ∀ b, (j, b) ∉ (display_contents recs).1 := by
  constructor
  · unfold displayRecord
    rw [hnb]
    simp
  · intro b hmem
    obtain ⟨m, hm, hjm, hb2, _⟩ := mem_displayLoop recs 0 j b hmem
    have hmj : m = j := by omega
    subst hmj
    have hb2' : binaryDisplayType ((recs.get ⟨m, hj⟩).contentType) = true := hb2
    rw [hnb] at hb2'
    exact Bool.noConfusion hb2'

/-- Witness for claim C10: a `text` record followed by an `image` record. -/
theorem claim_C10_witness :
    displayRecord 0
        (([⟨"text".toList, [], []⟩,
           ⟨"image".toList, [], "QQ==".toList⟩] : List ResultRecord).get
          ⟨0, by decide⟩) = Except.ok none ∧
      ∀ b, (0, b) ∉ (display_contents
        [⟨"text".toList, [], []⟩, ⟨"image".toList, [], "QQ==".toList⟩]).1 :=
  claim_C10 _ 0 (by decide) (by decide)

/-- Counterexample to claim C4 as stated: a record with `contentType="text"`
does not make the binary-extraction step fail with `DecodeError` — it is
skipped with no error at all. -/
theorem claim_C4_counterexample :
    displayRecord 0 ⟨"text".toList, [], "QUJD".toList⟩ = Except.ok none ∧
      displayRecord 0 ⟨"text".toList, [], "QUJD".toList⟩ ≠ Except.error () := by
  refine ⟨rfl, fun h => ?_⟩
  rw [show displayRecord 0 ⟨"text".toList, [], "QUJD".toList⟩ = Except.ok none
    from rfl] at h
  exact Except.noConfusion h

theorem b64Go_quads : ∀ (n : Nat) (content : List Char),
    (∀ c ∈ content, (b64Val c).isSome = true) → content.length = 4 * n →
    ∃ bs, b64Go [] 0 content = some bs ∧ bs.length = 3 * n := by
  intro n
  induction n with
  | zero =>
    intro content _ hlen
    have : content = [] := List.length_eq_zero.mp (by omega)
    subst this
    exact ⟨[], rfl, rfl⟩
  | succ n ih =>
    intro content hval hlen
    match content, hlen with
    | c1 :: c2 :: c3 :: c4 :: rest, hlen =>
      have hv1 := hval c1 (by simp)
      have hv2 := hval c2 (by simp)
      have hv3 := hval c3 (by simp)
      have hv4 := hval c4 (by simp)
      obtain ⟨v1, e1⟩ := Option.isSome_iff_exists.mp hv1
      obtain ⟨v2, e2⟩ := Option.isSome_iff_exists.mp hv2
      obtain ⟨v3, e3⟩ := Option.isSome_iff_exists.mp hv3
      obtain ⟨v4, e4⟩ := Option.isSome_iff_exists.mp hv4
      have hne1 : ¬c1 = '=' := fun h => by subst h; rw [show b64Val '=' = none from rfl] at e1; exact Option.noConfusion e1
      have hne2 : ¬c2 = '=' := fun h => by subst h; rw [show b64Val '=' = none from rfl] at e2; exact Option.noConfusion e2
      have hne3 : ¬c3 = '=' := fun h => by subst h; rw [show b64Val '=' = none from rfl] at e3; exact Option.noConfusion e3
      have hne4 : ¬c4 = '=' := fun h => by subst h; rw [show b64Val '=' = none from rfl] at e4; exact Option.noConfusion e4
      have hrest : rest.length = 4 * n := by
        simp only [List.length_cons] at hlen
        omega
      obtain ⟨bs, hbs, hbslen⟩ :=
        ih rest (fun c hc => hval c (by simp [hc])) hrest
      refine ⟨quadBytes [v1, v2, v3, v4] ++ bs, ?_, ?_⟩
      · simp [b64Go, hne1, hne2, hne3, hne4, e1, e2, e3, e4, hbs, quadBytes]
      · rw [List.length_append, hbslen, show (quadBytes [v1, v2, v3, v4]).length = 3
          from rfl]
        omega

/-- Amendment of claim C4: the binary-extraction step raises `DecodeError`
only for `image`/`table` records whose stored content fails base64 decoding;
a record of any other content type is skipped without decoding and without
error; on a binary-type record with valid base64 content it yields the
decoded bytes, whose length matches the decoded payload size (three bytes per
four-character group). -/
theorem claim_C4_amended :
    (∀ (i : Nat) (r : ResultRecord),
        (binaryDisplayType r.contentType = true →
          (∀ bs, b64decode r.content = some bs →
            displayRecord i r = Except.ok (some (i, bs))) ∧
          (b64decode r.content = none → displayRecord i r = Except.error ())) ∧
        (binaryDisplayType r.contentType = false →
          displayRecord i r = Except.ok none)) ∧
      ∀ (n : Nat) (content : List Char),
        (∀ c ∈ content, (b64Val c).isSome = true) → content.length = 4 * n →
        ∃ bs, b64decode content = some bs ∧ bs.length = 3 * n := by
  refine ⟨fun i r => ⟨fun hb => ⟨fun bs hd => ?_, fun hd => ?_⟩, fun hb => ?_⟩,
    fun n content hval hlen => b64Go_quads n content hval hlen⟩
  · unfold displayRecord
    rw [if_pos hb, hd]
  · unfold displayRecord
    rw [if_pos hb, hd]
  · unfold displayRecord
    rw [hb]
    simp

/-- Witness for the amended claim C4: an `image` record with content `QUJD`
yields the three bytes of `ABC`. -/
theorem claim_C4_amended_witness :
    displayRecord 0 ⟨"image".toList, [], "QUJD".toList⟩ =
        Except.ok (some (0, [65, 66, 67])) ∧
      ∃ bs, b64decode "QUJD".toList = some bs ∧ bs.length = 3 * 1 :=
  ⟨((claim_C4_amended.1 0 ⟨"image".toList, [], "QUJD".toList⟩).1 (by decide)).1
      [65, 66, 67] (by rfl),
   claim_C4_amended.2 1 "QUJD".toList (by decide) (by decide)⟩

/-- Counterexample to claim C5 as stated: with a bad `image` record first and
a good one second, the run aborts with an error and writes nothing, although
the second record alone is processed fine — the record after the failing one
is not processed. -/
theorem claim_C5_counterexample :
    display_contents [⟨"image".toList, [], "AB".toList⟩,
        ⟨"image".toList, [], "QQ==".toList⟩] = ([], true) ∧
      display_contents [⟨"image".toList, [], "QQ==".toList⟩] =
        ([(0, [65])], false) :=
  ⟨rfl, rfl⟩

/-- Amendment of claim C5: a failure decoding one result record aborts the
processing of the remaining records of that sequence — the loop raises, and
the records after the failing one are never examined (the result is the same
whatever follows the failing record). -/
theorem claim_C5_amended (i : Nat) (r : ResultRecord) (rs rs' : List ResultRecord)
    (h : displayRecord i r = Except.error ()) :
    displayLoop i (r :: rs) = ([], true) ∧
      displayLoop i (r :: rs) = displayLoop i (r :: rs') := by
  have h1 : ∀ rs0 : List ResultRecord, displayLoop i (r :: rs0) = ([], true) := by
    intro rs0
    rw [displayLoop, h]
  exact ⟨h1 rs, (h1 rs).trans (h1 rs').symm⟩

/-- Witness for the amended claim C5 at a concrete failing record. -/
theorem claim_C5_amended_witness :
    displayLoop 0 [⟨"image".toList, [], "AB".toList⟩,
        ⟨"image".toList, [], "QQ==".toList⟩] = ([], true) ∧
      displayLoop 0 [⟨"image".toList, [], "AB".toList⟩,
          ⟨"image".toList, [], "QQ==".toList⟩] =
        displayLoop 0 [⟨"image".toList, [], "AB".toList⟩] :=
  claim_C5_amended 0 ⟨"image".toList, [], "AB".toList⟩
    [⟨"image".toList, [], "QQ==".toList⟩] [] (by rfl)

/-! ## The fetch deadline (claim C1) -/

theorem fetchLoop_timeout (done T : Nat) (hdt : T < done) :
    ∀ (k t : Nat), t ≤ T → T - t = k → fetchLoop done T t = (T, true) := by
  intro k
  induction k with
  | zero =>
    intro t ht hk
    have hTt : t = T := by omega
    subst hTt
    rw [fetchLoop, if_neg (by omega), if_pos (Nat.le_refl t)]
  | succ k ih =>
    intro t ht hk
    rw [fetchLoop, if_neg (by omega), if_neg (by omega)]
    exact ih (t + 1) (by omega) (by omega)

/-- Claim C1: against a job whose remote processing completes only after the
caller-supplied deadline, `fetchJobResult` returns a `TimeoutError` at
elapsed time exactly the deadline (so within the deadline plus the model's
zero scheduling slack), it terminates on every input by construction, and
the job's status becomes TimedOut. -/
theorem claim_C1 (done T : Nat) (h : T < done) :
    fetchJobResult done T = (T, true) ∧
      statusAfterFetch done T = JobStatus.timedOut := by
  have hf : fetchJobResult done T = (T, true) :=
    fetchLoop_timeout done T h T 0 (Nat.zero_le T) (by omega)
  refine ⟨hf, ?_⟩
  unfold statusAfterFetch
  rw [hf]
  simp

/-- Witness for claim C1 with completion time 5 against deadline 3. -/
theorem claim_C1_witness :
    3 < 5 ∧ fetchJobResult 5 3 = (3, true) ∧
      statusAfterFetch 5 3 = JobStatus.timedOut :=
  ⟨by omega, claim_C1 5 3 (by omega)⟩

/-! ## The wire round-trip (claim C2) -/

theorem decodeVal_encodeVal (v : ParamVal) : decodeVal (encodeVal v) = some v := by
  cases v <;> rfl

theorem decodeParams_encodeParams (ps : List (List Char × ParamVal)) :
    ∀ rest, decodeParams ps.length (encodeParams ps ++ rest) = some (ps, rest) := by
  induction ps with
  | nil => intro rest; rfl
  | cons p ps ih =>
    intro rest
    obtain ⟨name, v⟩ := p
    simp [encodeParams, decodeParams, decodeVal_encodeVal, ih rest]

theorem decodeKind_kindName (k : TaskKind) : decodeKind (kindName k) = some k := by
  cases k <;> rfl

theorem decodeTasks_encodeTasks (ts : List Task) :
    ∀ rest, decodeTasks ts.length ((ts.map encodeTask).flatten ++ rest) =
      some (ts, rest) := by
  induction ts with
  | nil => intro rest; rfl
  | cons t ts ih =>
    intro rest
    obtain ⟨k, ps⟩ := t
    simp [encodeTask, decodeTasks, decodeKind_kindName,
      decodeParams_encodeParams, ih rest]

/-- Claim C2: serializing a JobSpec to the wire format and decoding it back
reproduces the JobSpec exactly — in particular the task sequence in identical
order — and the encoding is a function of the JobSpec alone, hence
deterministic and order-preserving over all attributes. -/
theorem claim_C2 (js : JobSpecData) (hne : js.tasks ≠ []) :
    decodeJobSpec (encodeJobSpec js) = some js ∧
      (decodeJobSpec (encodeJobSpec js)).map JobSpecData.tasks = some js.tasks := by
  obtain ⟨dt, payload, sid, sname, tasks, tr, ts⟩ := js
  have hdec := decodeTasks_encodeTasks tasks []
  rw [List.append_nil] at hdec
  refine ⟨?_, ?_⟩ <;> simp [encodeJobSpec, decodeJobSpec, hdec]

/-- Witness for claim C2 on a two-task JobSpec. -/
theorem claim_C2_witness :
    (JobSpecData.tasks ⟨"pdf".toList, "P".toList, [], [],
        [⟨TaskKind.extract, []⟩,
         ⟨TaskKind.dedup, [("filter".toList, ParamVal.pBool true)]⟩], true, 123⟩ ≠ []) ∧
      decodeJobSpec (encodeJobSpec ⟨"pdf".toList, "P".toList, [], [],
          [⟨TaskKind.extract, []⟩,
           ⟨TaskKind.dedup, [("filter".toList, ParamVal.pBool true)]⟩], true, 123⟩) =
        some ⟨"pdf".toList, "P".toList, [], [],
          [⟨TaskKind.extract, []⟩,
           ⟨TaskKind.dedup, [("filter".toList, ParamVal.pBool true)]⟩], true, 123⟩ :=
  ⟨by decide,
   (claim_C2 ⟨"pdf".toList, "P".toList, [], [],
      [⟨TaskKind.extract, []⟩,
       ⟨TaskKind.dedup, [("filter".toList, ParamVal.pBool true)]⟩], true, 123⟩
     (by decide)).1⟩

/-! ## Task parameter validation (claim C6) -/

theorem paramsValid_iff (k : TaskKind) (ps : List (List Char × ParamVal)) :
    paramsValid k ps = true ↔ validTaskParams k ps := by
  unfold paramsValid validTaskParams
  rw [Bool.and_eq_true, List.all_eq_true, List.all_eq_true]
  constructor
  · rintro ⟨h1, h2⟩
    refine ⟨fun n hn => Option.isSome_iff_exists.mp (h1 n hn), fun p hp => ?_⟩
    have := h2 p hp
    rw [Bool.and_eq_true, decide_eq_true_eq] at this
    exact this
  · rintro ⟨h1, h2⟩
    refine ⟨fun n hn => ?_, fun p hp => ?_⟩
    · obtain ⟨v, hv⟩ := h1 n hn
      simp [hv]
    · rw [Bool.and_eq_true, decide_eq_true_eq]
      exact h2 p hp

/-- Claim C6: task construction succeeds exactly on parameter mappings that
are valid for the declared kind — every required parameter present and every
supplied parameter known and of the right semantic type, numeric ranges
included — and otherwise fails, at construction, with
`InvalidParameterError`. -/
theorem claim_C6 (k : TaskKind) (ps : List (List Char × ParamVal)) :
    (newTask k ps = Except.ok ⟨k, ps⟩ ↔ validTaskParams k ps) ∧
      (newTask k ps = Except.error TaskError.invalidParameter ↔
        ¬validTaskParams k ps) := by
  by_cases h : paramsValid k ps = true
  · have hv := (paramsValid_iff k ps).mp h
    unfold newTask
    rw [if_pos h]
    exact ⟨⟨fun _ => hv, fun _ => rfl⟩,
      ⟨fun heq => Except.noConfusion heq, fun hnv => absurd hv hnv⟩⟩
  · have hnv : ¬validTaskParams k ps := fun hv => h ((paramsValid_iff k ps).mpr hv)
    unfold newTask
    rw [if_neg h]
    exact ⟨⟨fun heq => Except.noConfusion heq, fun hv => absurd hv hnv⟩,
      ⟨fun _ => hnv, fun _ => rfl⟩⟩

/-- Witness for claim C6: a valid dedup parameter mapping constructs, and
dropping a required parameter makes construction fail. -/
theorem claim_C6_witness :
    newTask TaskKind.dedup [("content_type".toList, ParamVal.pStr "image".toList),
        ("filter".toList, ParamVal.pBool true)] =
      Except.ok ⟨TaskKind.dedup,
        [("content_type".toList, ParamVal.pStr "image".toList),
         ("filter".toList, ParamVal.pBool true)]⟩ ∧
      newTask TaskKind.dedup [("content_type".toList, ParamVal.pStr "image".toList)] =
        Except.error TaskError.invalidParameter := by
  constructor
  · refine (claim_C6 TaskKind.dedup _).1.mpr ⟨fun n hn => ?_, fun p hp => ?_⟩
    · fin_cases hn
      · exact ⟨_, rfl⟩
      · exact ⟨_, rfl⟩
    · fin_cases hp
      · exact ⟨by decide, by decide⟩
      · exact ⟨by decide, by decide⟩
  · refine (claim_C6 TaskKind.dedup _).2.mpr fun hv => ?_
    obtain ⟨h1, _⟩ := hv
    obtain ⟨v, hlook⟩ := h1 "filter".toList (by decide)
    rw [show lookupP [("content_type".toList, ParamVal.pStr "image".toList)]
      "filter".toList = none from by decide] at hlook
    exact Option.noConfusion hlook

/-! ## JobSpec construction (claim C7) -/

/-- Claim C7: JobSpec construction fails with `EmptyPayloadError` exactly
when the payload is empty at construction time (otherwise it succeeds with an
empty task sequence), and `addTask` appends the given task to the end of the
ordered task sequence. -/
theorem claim_C7 :
    (∀ (dt sid sname : List Char) (tr : Bool) (ts : Nat),
        newJobSpec dt [] sid sname tr ts = Except.error JobSpecError.emptyPayload) ∧
      (∀ (dt payload sid sname : List Char) (tr : Bool) (ts : Nat), payload ≠ [] →
        newJobSpec dt payload sid sname tr ts =
          Except.ok ⟨dt, payload, sid, sname, [], tr, ts⟩) ∧
      ∀ (js : JobSpecData) (t : Task), (addTask js t).tasks = js.tasks ++ [t] := by
  refine ⟨fun dt sid sname tr ts => rfl, fun dt p sid sname tr ts hp => ?_,
    fun js t => rfl⟩
  unfold newJobSpec
  rw [if_neg hp]

/-- Witness for claim C7 at concrete payloads and a concrete append. -/
theorem claim_C7_witness :
    newJobSpec "pdf".toList [] [] [] true 0 =
        Except.error JobSpecError.emptyPayload ∧
      newJobSpec "pdf".toList "P".toList [] [] true 0 =
        Except.ok ⟨"pdf".toList, "P".toList, [], [], [], true, 0⟩ ∧
      (addTask ⟨[], [], [], [], [], false, 0⟩ ⟨TaskKind.dedup, []⟩).tasks =
        [] ++ [⟨TaskKind.dedup, []⟩] :=
  ⟨claim_C7.1 _ _ _ _ _, claim_C7.2.1 _ _ _ _ _ _ (by decide), claim_C7.2.2 _ _⟩

end NvIngest
